import Mathlib

/-!
Verification of the password-structure model of the Password-Decryption
repository (files `src/utils.py`, `pcfg_model.py`, `password_generator.py`,
`src/config.py`).

Strings are modelled as `List Char` with ASCII character classes
(Python's `str.isdigit`/`str.isalpha`/`str.strip` are Unicode-aware; the
training corpora are latin-1 text, and every character constant appearing
in the source is ASCII, so the ASCII model is faithful on the data the
program handles).  Python `float` scores built from `math.log` are
modelled in `ℚ`: the beam-search theorems are independent of the values
of the logarithm, which is therefore passed in as an arbitrary function,
and the corpus score is represented by the product of its probability
factors (the Python score is the logarithm of that product, and `log` is
strictly monotone on positives, so equality and order of scores coincide
with equality and order of the products).
-/

namespace PD

/-- Slot types of the classifier (`utils.py`): the Python code uses the
strings `"DIGITS"`, `"WORD"`, `"FRAG"`, `"SYMBOL"`; the set is closed. -/
inductive SlotType where
  | DIGITS | WORD | FRAG | SYMBOL
deriving DecidableEq, Repr

/-- Character class used by the run regex `[A-Za-z]+|\d+|[^A-Za-z\d]+`:
a character is alphabetic, a digit, or anything else. -/
inductive CClass where
  | alpha | digit | other
deriving DecidableEq

def cclass (c : Char) : CClass :=
  if c.isAlpha then .alpha else if c.isDigit then .digit else .other

/-- Maximal runs of one character class, in order: the semantics of
`re.findall(r'[A-Za-z]+|\d+|[^A-Za-z\d]+', s)` (classes are disjoint and
cover all characters, so the matches are exactly the maximal runs). -/
def runsOf : List Char → List (List Char)
  | [] => []
  | c :: rest =>
    match runsOf rest with
    | [] => [[c]]
    | [] :: gs => [c] :: [] :: gs
    | (d :: g) :: gs =>
      if cclass c = cclass d then (c :: d :: g) :: gs else [c] :: (d :: g) :: gs

/-- Python `str.strip()`: drop whitespace from both ends. -/
def stripChars (s : List Char) : List Char :=
  ((s.dropWhile Char.isWhitespace).reverse.dropWhile Char.isWhitespace).reverse

/-- Decimal digits of a natural number, most significant first
(the characters produced by Python's `str(n)` / f-string interpolation). -/
def natToChars (n : Nat) : List Char :=
  if h : n < 10 then [Char.ofNat (48 + n)]
  else natToChars (n / 10) ++ [Char.ofNat (48 + n % 10)]
  decreasing_by exact Nat.div_lt_self (by omega) (by omega)

/-- Value of a decimal digit string (Python `int(s)` on an all-digit `s`). -/
def charsToNat (s : List Char) : Nat :=
  s.foldl (fun a c => 10 * a + (c.toNat - 48)) 0

/-- The leet-speak translation table `LEET_MAP` of `utils.py`. -/
def leetMap (c : Char) : Char :=
  if c = '0' then 'o' else if c = '1' then 'l' else if c = '3' then 'e'
  else if c = '4' then 'a' else if c = '5' then 's' else if c = '7' then 't'
  else if c = '@' then 'a' else if c = '$' then 's' else if c = '!' then 'i'
  else c

/-- Function `leet_normalize` of `utils.py`: `s.translate(LEET_MAP).lower()`. -/
def leet_normalize (s : List Char) : List Char :=
  (s.map leetMap).map Char.toLower

/-- Function `classify_run` of `utils.py`.  The lazily loaded global English
vocabulary is passed explicitly as the read-only set `vocab` (the code
guards word classification by `if vocab and token_norm in vocab`, i.e.
the vocabulary must be non-empty and contain the normalized token).
Returns (slot type, token for counts, template token). -/
def classify_run (vocab : List (List Char)) (doLeet useVocab : Bool)
    (r : List Char) : SlotType × List Char × List Char :=
  if r ≠ [] ∧ r.all Char.isDigit then
    (.DIGITS, r, "DIGITS".toList ++ natToChars r.length)
  else if r ≠ [] ∧ r.all Char.isAlpha then
    let tn0 := r.map Char.toLower
    let tn := if doLeet then leet_normalize tn0 else tn0
    if useVocab ∧ tn.length ≥ 3 ∧ vocab ≠ [] ∧ tn ∈ vocab then
      (.WORD, tn, "WORD".toList ++ natToChars tn.length)
    else (.FRAG, tn, "FRAG".toList)
  else (.SYMBOL, r, "SYMBOL".toList)

/-- Function `tokenize` of `utils.py`: strip the password, split it into runs,
classify each run, and return (tokens for counts, template string),
the template being the template tokens joined with `"|"`. -/
def tokenize (vocab : List (List Char)) (doLeet useVocab : Bool)
    (password : List Char) : List (List Char) × List Char :=
  let pw := stripChars password
  let rs := runsOf pw
  let cls := rs.map (classify_run vocab doLeet useVocab)
  (cls.map (fun t => t.2.1), List.intercalate ['|'] (cls.map (fun t => t.2.2)))

/-- Split on `'|'`: the semantics of Python `template.split("|")`
(the empty string splits to `[""]`). -/
def splitBar : List Char → List (List Char)
  | [] => [[]]
  | c :: rest =>
    if c = '|' then [] :: splitBar rest
    else
      match splitBar rest with
      | [] => [[c]]
      | l :: ls => (c :: l) :: ls

/-- One part of `parse_template` of `utils.py`: the `if/elif` chain over a
single part of the split (order: `WORD` prefix, `DIGITS` prefix, equal to
`SYMBOL`, equal to `FRAG`, fallback `FRAG`). -/
def parsePart (part : List Char) : SlotType × Option Nat :=
  if "WORD".toList.isPrefixOf part then
    (.WORD, if part.length > 4 ∧ (part.drop 4).all Char.isDigit
            then some (charsToNat (part.drop 4)) else none)
  else if "DIGITS".toList.isPrefixOf part then
    (.DIGITS, if part.length > 6 ∧ (part.drop 6).all Char.isDigit
              then some (charsToNat (part.drop 6)) else none)
  else if part = "SYMBOL".toList then (.SYMBOL, none)
  else if part = "FRAG".toList then (.FRAG, none)
  else (.FRAG, none)

/-- Function `parse_template` of `utils.py`: split the template on `"|"` and map
each part to a (slot type, optional length) pair. -/
def parse_template (template : List Char) : List (SlotType × Option Nat) :=
  (splitBar template).map parsePart

/-! ### Counters (`collections.Counter`) -/

/-- A `collections.Counter`, modelled as an association list in key
insertion order (Python dicts preserve insertion order; new keys are
appended at the end). -/
abbrev Counter (α : Type) := List (α × Nat)

/-- Python `counter[k]`: lookup with default 0 (a missing key is not inserted). -/
def cget {α : Type} [DecidableEq α] (c : Counter α) (k : α) : Nat :=
  match c with
  | [] => 0
  | (a, n) :: rest => if a = k then n else cget rest k

/-- Python `counter[k] += 1`: update in place, appending a new key at the end. -/
def cincr {α : Type} [DecidableEq α] (c : Counter α) (k : α) : Counter α :=
  match c with
  | [] => [(k, 1)]
  | (a, n) :: rest => if a = k then (a, n + 1) :: rest else (a, n) :: cincr rest k

/-- Python `sum(counter.values())`. -/
def ctotal {α : Type} (c : Counter α) : Nat :=
  (c.map Prod.snd).sum

/-- Python `len(counter)`: the number of keys. -/
def csize {α : Type} (c : Counter α) : Nat := c.length

/-- Python `counter.most_common(n)`: entries sorted by count descending, top `n`
(count ties broken by insertion order, which the spec leaves arbitrary;
the list sort here is stable like CPython's). -/
def mostCommon {α : Type} (c : Counter α) (n : Nat) : Counter α :=
  (c.mergeSort (fun a b => decide (b.2 ≤ a.2))).take n

/-! ### The `PCFGLite` model (`pcfg_model.py`) -/

/-- The mutable state of `PCFGLite`.  `slot_counts` is a
`defaultdict(Counter)` keyed by the four slot-type strings, modelled as a
total function (a slot type that was never touched maps to the empty
counter, exactly what `defaultdict`/`dict.get(k, Counter())` yield). -/
structure PCFGLite where
  template_counts : Counter (List Char)
  slot_counts : SlotType → Counter (List Char)
  total_templates : Nat
  alpha : ℚ
  do_leet : Bool

/-- Constructor `PCFGLite.__init__(alpha, do_leet)`. -/
def initModel (alpha : ℚ) (doLeet : Bool) : PCFGLite :=
  { template_counts := [], slot_counts := fun _ => [],
    total_templates := 0, alpha := alpha, do_leet := doLeet }

/-- Method `PCFGLite.trim_slot_counts(top_n)`: replace each slot counter by its
top-`top_n` entries; templates and the total counter are untouched. -/
def trim_slot_counts (m : PCFGLite) (topN : Nat) : PCFGLite :=
  { m with slot_counts := fun st => mostCommon (m.slot_counts st) topN }

/-- The body of the `fit_list` loop for one non-empty password: count its
template (from the stripped password, via `tokenize`) and each slot token
(from the runs of the *raw* password: `re.findall(..., pw)` in the source
is applied to `pw`, not to the stripped string). -/
def fitOne (vocab : List (List Char)) (useVocab : Bool)
    (m : PCFGLite) (pw : List Char) : PCFGLite :=
  let template := (tokenize vocab m.do_leet useVocab pw).2
  let m1 := { m with template_counts := cincr m.template_counts template,
                     total_templates := m.total_templates + 1 }
  (runsOf pw).foldl (fun acc r =>
    let cl := classify_run vocab acc.do_leet useVocab r
    { acc with slot_counts := fun st =>
        if st = cl.1 then cincr (acc.slot_counts st) cl.2.1 else acc.slot_counts st })
    m1

/-- Truthiness guard `if max_samples and i >= max_samples` of the source:
Python treats `None` and `0` as "no limit". -/
def capReached (maxSamples : Option Nat) (i : Nat) : Bool :=
  match maxSamples with
  | none => false
  | some m => decide (m ≠ 0) && decide (i ≥ m)

/-- Truthiness guard `if trim_top_n and (processed % 500000 == 0)`. -/
def trimDue (trimTopN : Option Nat) (processed : Nat) : Bool :=
  match trimTopN with
  | none => false
  | some t => decide (t ≠ 0) && decide (processed % 500000 = 0)

/-- The loop of `PCFGLite.fit_list`: `i` is the `enumerate` index (counts
every element, empty or not), `processed` counts the fitted passwords;
empty passwords are skipped, the cap breaks the loop, and the model is
periodically trimmed. -/
def fitListAux (vocab : List (List Char)) (useVocab : Bool)
    (maxSamples trimTopN : Option Nat) :
    List (List Char) → Nat → Nat → PCFGLite → PCFGLite
  | [], _, _, m => m
  | pw :: rest, i, processed, m =>
    if capReached maxSamples i then m
    else if pw = [] then fitListAux vocab useVocab maxSamples trimTopN rest (i + 1) processed m
    else
      let m' := fitOne vocab useVocab m pw
      let processed' := processed + 1
      let m'' := if trimDue trimTopN processed'
                 then trim_slot_counts m' (trimTopN.getD 0) else m'
      fitListAux vocab useVocab maxSamples trimTopN rest (i + 1) processed' m''

/-- Method `PCFGLite.fit_list(pw_list, max_samples, verbose, use_vocab, trim_top_n)`
(logging omitted: it does not touch the state). -/
def fit_list (vocab : List (List Char)) (m : PCFGLite) (pwList : List (List Char))
    (maxSamples : Option Nat) (useVocab : Bool) (trimTopN : Option Nat) : PCFGLite :=
  fitListAux vocab useVocab maxSamples trimTopN pwList 0 0 m

/-- Method `PCFGLite.fit_file(filepath, max_lines, use_vocab, trim_top_n)`:
`iter_lines_from_file` skips empty lines; the `max_lines` cap (with the
same truthiness as `max_samples`) is applied to that filtered stream, and
the result is handed to `fit_list` with `max_samples=None`.  The file is
modelled by its list of (newline-stripped) lines. -/
def fit_file (vocab : List (List Char)) (m : PCFGLite) (lines : List (List Char))
    (maxLines : Option Nat) (useVocab : Bool) (trimTopN : Option Nat) : PCFGLite :=
  let nonEmpty := lines.filter (fun l => decide (l ≠ []))
  let capped := match maxLines with
    | none => nonEmpty
    | some k => if k = 0 then nonEmpty else nonEmpty.take k
  fit_list vocab m capped none useVocab trimTopN

/-- Method `PCFGLite.template_prob(template)`:
`(count + alpha) / (total_templates + alpha * (V + 1))` with `V` the
number of distinct templates seen. -/
def template_prob (m : PCFGLite) (template : List Char) : ℚ :=
  ((cget m.template_counts template : ℚ) + m.alpha) /
    ((m.total_templates : ℚ) + m.alpha * ((csize m.template_counts : ℚ) + 1))

/-- Method `PCFGLite.slot_token_prob(slot_type, token)`: the same smoothing
formula scoped to the slot type's counter. -/
def slot_token_prob (m : PCFGLite) (slot : SlotType) (token : List Char) : ℚ :=
  let counter := m.slot_counts slot
  ((cget counter token : ℚ) + m.alpha) /
    ((ctotal counter : ℚ) + m.alpha * ((csize counter : ℚ) + 1))

/-- The product of the probability factors of `PCFGLite.score(password)`:
the template probability (of the template of the *stripped* password,
via `tokenize`) times the slot-token probability of every run of the
*raw* password (the source recomputes `re.findall(..., password)` on the
unstripped argument).  The Python score is `log` of this product — it
accumulates `math.log` of each factor — and `log` is strictly monotone
on the positives, so two passwords receive equal (resp. ordered) scores
exactly when their factor products are equal (resp. ordered). -/
def scoreFactor (vocab : List (List Char)) (useVocab : Bool)
    (m : PCFGLite) (password : List Char) : ℚ :=
  let template := (tokenize vocab m.do_leet useVocab password).2
  (runsOf password).foldl (fun acc r =>
    let cl := classify_run vocab m.do_leet useVocab r
    acc * slot_token_prob m cl.1 cl.2.1)
    (template_prob m template)

/-! ### Persistence: `PCFGLite.save` / `PCFGLite.load` (state_only path) -/

/-- A Python dict read as a model state dict: the five fields that
`load` extracts with `st.get(field, default)`; a field is `none` when the
key is absent.  (`total_templates` is stored through `int(...)`; model
totals are naturals.) -/
structure StateDict where
  template_counts : Option (Counter (List Char))
  slot_counts : Option (SlotType → Counter (List Char))
  total_templates : Option Nat
  alpha : Option ℚ
  do_leet : Option Bool

/-- A state dict with none of the five state keys (what any dict carrying
only foreign keys looks like to `st.get`). -/
def blankState : StateDict :=
  { template_counts := none, slot_counts := none, total_templates := none,
    alpha := none, do_leet := none }

/-- A successfully unpickled Python value, as far as `load` inspects it:
either a dict — with the truthiness of its `"__pcfg_state_v1"` key, the
value of its `"data"` key if present, and its own reading as a state
dict — or some non-dict object. -/
inductive PyVal where
  | pdictV (hasMarker : Bool) (dataField : Option PyVal) (selfState : StateDict)
  | nonDictV

/-- The content found at the path given to `load`. -/
inductive LoadFile where
  | missing
  | notAPickle
  | pickleOf (v : PyVal)

/-- The distinguishable ways `load` raises. -/
inductive LoadError where
  | fileNotFound
  | unpicklingError
  | keyError
  | attributeError
deriving DecidableEq

/-- Building the model from a state dict: `cls(alpha=st.get("alpha", 1.0),
do_leet=st.get("do_leet", False))` followed by the three field
assignments with defaults `{}`, `{}` and `0`. -/
def modelFromState (st : StateDict) : PCFGLite :=
  { template_counts := st.template_counts.getD [],
    slot_counts := st.slot_counts.getD (fun _ => []),
    total_templates := st.total_templates.getD 0,
    alpha := st.alpha.getD 1,
    do_leet := st.do_leet.getD false }

/-- Method `PCFGLite.save(path, state_only=True)`: pickles
`{"__pcfg_state_v1": True, "data": data}` where `data` holds the five
state fields.  The wrapper dict, read as a state dict, carries none of
the five keys; the inner data dict carries no marker and no `"data"`
key. -/
def saveState (m : PCFGLite) : PyVal :=
  .pdictV true
    (some (.pdictV false none
      { template_counts := some m.template_counts,
        slot_counts := some m.slot_counts,
        total_templates := some m.total_templates,
        alpha := some m.alpha,
        do_leet := some m.do_leet }))
    blankState

/-- Method `PCFGLite.load(path, state_only=True)`: raises `FileNotFoundError`
when the path does not exist and `pickle.UnpicklingError` when the bytes
are not a pickle; a dict whose `"__pcfg_state_v1"` key is truthy has its
`"data"` value taken as the state dict (`KeyError` if absent,
`AttributeError` on `.get` if it is not a dict); any other dict is taken
as a bare state dict; a non-dict raises `AttributeError` on `.get`. -/
def loadState : LoadFile → Except LoadError PCFGLite
  | .missing => .error .fileNotFound
  | .notAPickle => .error .unpicklingError
  | .pickleOf (.pdictV true df _) =>
    match df with
    | some (.pdictV _ _ st) => .ok (modelFromState st)
    | some .nonDictV => .error .attributeError
    | none => .error .keyError
  | .pickleOf (.pdictV false _ selfSt) => .ok (modelFromState selfSt)
  | .pickleOf .nonDictV => .error .attributeError

/-- Whether an unpickled value is a dict whose `"__pcfg_state_v1"` key is
truthy — the structural mark every `save` output carries. -/
def hasStateMarker : PyVal → Bool
  | .pdictV b _ _ => b
  | .nonDictV => false

/-! ### The candidate generator (`password_generator.py`) -/

/-- Constant `config.MAX_PASSWORD_LENGTH` (`src/config.py`). -/
def MAX_PASSWORD_LENGTH : Nat := 64

/-- Constant `config.COMMON_SYMBOLS` (`src/config.py`). -/
def COMMON_SYMBOLS : List (List Char) :=
  [['!'], ['@'], ['#'], ['$'], ['%'], ['&'], ['!', '!'], ['#', '#']]

/-- The token pools and count map a `PasswordGenerator` holds after
construction from a snapshot and a FRAG table (`top_templates` is not
needed by the verified operations and omitted). -/
structure PasswordGenerator where
  top_words : List (List Char)
  top_digits : List (List Char)
  top_frags : List (List Char)
  count_map : List ((SlotType × List Char) × Nat)

/-- Python `self.count_map.get((slot_type, token), 1)`. -/
def cmGet (cm : List ((SlotType × List Char) × Nat)) (k : SlotType × List Char) : Nat :=
  match cm with
  | [] => 1
  | (a, n) :: rest => if a = k then n else cmGet rest k

/-- Method `PasswordGenerator._partial_score(prefix_score, slot_type, token)`:
adds `math.log(count + 1)` to the prefix score.  The logarithm is a
float in the source; it is modelled by an arbitrary rational-valued
function `logQ` — every property proved below holds for all `logQ`. -/
def incrementalScore (g : PasswordGenerator) (logQ : Nat → ℚ)
    (prefixScore : ℚ) (slot : SlotType) (token : List Char) : ℚ :=
  prefixScore + logQ (cmGet g.count_map (slot, token) + 1)

/-- Method `PasswordGenerator._get_slot_choices(slot_type, topk)`. -/
def getSlotChoices (g : PasswordGenerator) (slot : SlotType) (topk : Nat) :
    List (List Char) :=
  match slot with
  | .WORD => g.top_words.take topk
  | .FRAG => g.top_frags.take topk
  | .DIGITS => g.top_digits.take topk
  | .SYMBOL => COMMON_SYMBOLS

/-- Descending comparison on scored candidates:
`sort(key=lambda x: x[1], reverse=True)` (a stable sort, like CPython's). -/
def scoreGe (a b : List Char × ℚ) : Bool := decide (b.2 ≤ a.2)

/-- One slot expansion of the beam: every beam prefix extended by every
choice, skipping extensions longer than `MAX_PASSWORD_LENGTH`, in
beam-major order as the nested `for` loops produce them. -/
def expandSlot (g : PasswordGenerator) (logQ : Nat → ℚ) (topk : Nat)
    (beam : List (List Char × ℚ)) (slot : SlotType) : List (List Char × ℚ) :=
  beam.flatMap (fun pr =>
    (getSlotChoices g slot topk).filterMap (fun tok =>
      let cand := pr.1 ++ tok
      if cand.length > MAX_PASSWORD_LENGTH then none
      else some (cand, incrementalScore g logQ pr.2 slot tok)))

/-- The slot loop of `generate_deterministic`: expand, sort descending,
prune to `prune_beam`, and stop early when the beam empties. -/
def beamLoop (g : PasswordGenerator) (logQ : Nat → ℚ) (topk pruneBeam : Nat) :
    List (SlotType × Option Nat) → List (List Char × ℚ) → List (List Char × ℚ)
  | [], beam => beam
  | (slot, _) :: rest, beam =>
    let b := ((expandSlot g logQ topk beam slot).mergeSort scoreGe).take pruneBeam
    if b = [] then b else beamLoop g logQ topk pruneBeam rest b

/-- Method `PasswordGenerator.generate_deterministic(template, topk_per_slot,
prune_beam, min_len, max_out)`: run the beam over the parsed template
starting from the single empty prefix, keep the completed candidates of
length at least `min_len`, sort by score descending and yield at most
`max_out` of them.  The lazily yielded finite sequence is modelled by
the list of pairs in yield order. -/
def generate_deterministic (g : PasswordGenerator) (logQ : Nat → ℚ)
    (template : List Char) (topkPerSlot pruneBeam minLen maxOut : Nat) :
    List (List Char × ℚ) :=
  let slots := parse_template template
  let beam := beamLoop g logQ topkPerSlot pruneBeam slots [([], 0)]
  let final := beam.filter (fun p => decide (p.1.length ≥ minLen))
  (final.mergeSort scoreGe).take maxOut

/-- Method `PasswordGenerator.estimate_template_length(template)`: fold the
(min, max) accumulators over the parsed slots exactly as the source's
`for` loop does (note the Python truthiness `if n:` — a parsed length of
`0` falls to the fallback branch — and the fallback maxima taken from
the *first* element of each pool, `top_xxx[0]`, with literal defaults
when the pool is empty). -/
def estimate_template_length (g : PasswordGenerator) (template : List Char) :
    Nat × Nat :=
  (parse_template template).foldl (fun acc sl =>
    match sl.1 with
    | .DIGITS =>
      if sl.2.getD 0 ≠ 0 then (acc.1 + sl.2.getD 0, acc.2 + sl.2.getD 0)
      else (acc.1 + 1, acc.2 + (match g.top_digits with
                                | d :: _ => d.length
                                | [] => 4))
    | .WORD =>
      if sl.2.getD 0 ≠ 0 then (acc.1 + sl.2.getD 0, acc.2 + sl.2.getD 0)
      else (acc.1 + 3, acc.2 + (match g.top_words with
                                | w :: _ => w.length
                                | [] => 12))
    | .SYMBOL => (acc.1 + 1, acc.2 + 4)
    | .FRAG => (acc.1 + 3, acc.2 + (match g.top_frags with
                                    | f :: _ => f.length
                                    | [] => 12)))
    (0, 0)

/-! ### The candidate combiner (`combine_and_dedupe_candidates`) -/

/-- Splitting text into lines with universal-newline semantics (Python
text-mode file iteration recognizes `"\r\n"`, `"\r"` and `"\n"` as line
terminators); a trailing terminator yields a final empty piece, which the
combiner's non-empty filter discards, so this matches Python's iteration
(which yields no empty final line) on the lines the combiner keeps. -/
def splitLines : List Char → List (List Char)
  | [] => [[]]
  | '\r' :: '\n' :: rest => [] :: splitLines rest
  | '\r' :: rest => [] :: splitLines rest
  | '\n' :: rest => [] :: splitLines rest
  | c :: rest =>
    match splitLines rest with
    | [] => [[c]]
    | l :: ls => (c :: l) :: ls

/-- The candidates one input file contributes: each line stripped, empty
results dropped (`candidate = line.strip(); if candidate: ...add`). -/
def candidatesOfContent (content : List Char) : List (List Char) :=
  ((splitLines content).map stripChars).filter (fun l => decide (l ≠ []))

/-- Python string `<=`: lexicographic comparison by code point. -/
def lexLe : List Char → List Char → Bool
  | [], _ => true
  | _ :: _, [] => false
  | x :: xs, y :: ys => if x < y then true else if y < x then false else lexLe xs ys

/-- The deduplicated sorted candidate list `sorted(unique_candidates)`:
the union set is modelled by `dedup` (same member set) and ordered by
`sorted`'s lexicographic order; a `none` input file is skipped with a
warning. -/
def combineSet (files : List (Option (List Char))) : List (List Char) :=
  let cands := files.foldl (fun acc f =>
    match f with
    | none => acc
    | some content => acc ++ candidatesOfContent content) []
  cands.dedup.mergeSort lexLe

/-- The output file written by `combine_and_dedupe_candidates`: every
candidate followed by `"\n"`, in sorted order. -/
def combine_and_dedupe_candidates (files : List (Option (List Char))) : List Char :=
  ((combineSet files).map (fun c => c ++ ['\n'])).flatten

/-! ### Operation sequences on a model (for the training invariant) -/

/-- One completed public mutating call on a `PCFGLite`: a `fit_list`, a
`fit_file`, or an explicit `trim_slot_counts`. -/
inductive ModelOp where
  | fitListOp (pws : List (List Char)) (maxSamples : Option Nat)
      (useVocab : Bool) (trimTopN : Option Nat)
  | fitFileOp (lines : List (List Char)) (maxLines : Option Nat)
      (useVocab : Bool) (trimTopN : Option Nat)
  | trimOp (topN : Nat)

def applyOp (vocab : List (List Char)) (m : PCFGLite) : ModelOp → PCFGLite
  | .fitListOp pws maxSamples useVocab trimTopN =>
    fit_list vocab m pws maxSamples useVocab trimTopN
  | .fitFileOp lines maxLines useVocab trimTopN =>
    fit_file vocab m lines maxLines useVocab trimTopN
  | .trimOp topN => trim_slot_counts m topN

def applyOps (vocab : List (List Char)) (m : PCFGLite) (ops : List ModelOp) : PCFGLite :=
  ops.foldl (applyOp vocab) m

/-- The data-model invariant of the spec:
`total_templates == sum(template_counts.values())`. -/
def invariantTT (m : PCFGLite) : Prop :=
  ctotal m.template_counts = m.total_templates

/-! ### Spec-side definitions for the corrected claims -/

/-- The decoding of a length suffix as the amended template-decoding
claim words it: an integer suffix yields its value, a missing or
non-integer suffix yields no length. -/
def decodeLen (s : List Char) : Option Nat :=
  if s ≠ [] ∧ s.all Char.isDigit then some (charsToNat s) else none

/-- One template part as the amended decoding claim describes it: a part
with the `WORD`/`DIGITS` prefix yields that slot type with its decoded
length suffix (if any); the bare `SYMBOL` part yields `SYMBOL`; every
other part yields `FRAG` with no length. -/
def slotOfPartSpec (part : List Char) : SlotType × Option Nat :=
  if "WORD".toList.isPrefixOf part then (.WORD, decodeLen (part.drop 4))
  else if "DIGITS".toList.isPrefixOf part then (.DIGITS, decodeLen (part.drop 6))
  else if part = "SYMBOL".toList then (.SYMBOL, none)
  else (.FRAG, none)

/-- Minimum length one slot contributes in the amended length-estimate
claim: its embedded length when it is a `WORD`/`DIGITS` slot with a
nonzero embedded length, else the fallback minimum (`WORD`/`FRAG`: 3,
`DIGITS`/`SYMBOL`: 1). -/
def slotMinSpec (slot : SlotType × Option Nat) : Nat :=
  match slot with
  | (.DIGITS, some n) => if n ≠ 0 then n else 1
  | (.DIGITS, none) => 1
  | (.WORD, some n) => if n ≠ 0 then n else 3
  | (.WORD, none) => 3
  | (.SYMBOL, _) => 1
  | (.FRAG, _) => 3

/-- The length of the first (most frequent) entry of the digit pool, 4
when the pool is empty: `len(self.top_digits[0]) if self.top_digits else 4`. -/
def firstDigitLen (g : PasswordGenerator) : Nat :=
  match g.top_digits with
  | d :: _ => d.length
  | [] => 4

/-- The length of the first (most frequent) entry of the word pool, 12
when the pool is empty. -/
def firstWordLen (g : PasswordGenerator) : Nat :=
  match g.top_words with
  | w :: _ => w.length
  | [] => 12

/-- The length of the first (most frequent) entry of the FRAG pool, 12
when the pool is empty. -/
def firstFragLen (g : PasswordGenerator) : Nat :=
  match g.top_frags with
  | f :: _ => f.length
  | [] => 12

/-- Maximum length one slot contributes in the amended length-estimate
claim: its embedded length when it is a `WORD`/`DIGITS` slot with a
nonzero embedded length, else the fallback maximum — the length of the
*first* (most frequent) entry of the matching pool, defaulting to 4 for
`DIGITS` and 12 for `WORD` and `FRAG` when the pool is empty, and the
literal 4 for `SYMBOL`. -/
def slotMaxSpec (g : PasswordGenerator) (slot : SlotType × Option Nat) : Nat :=
  match slot with
  | (.DIGITS, some n) => if n ≠ 0 then n else firstDigitLen g
  | (.DIGITS, none) => firstDigitLen g
  | (.WORD, some n) => if n ≠ 0 then n else firstWordLen g
  | (.WORD, none) => firstWordLen g
  | (.SYMBOL, _) => 4
  | (.FRAG, _) => firstFragLen g

/-! ## Theorems -/

/-- Claim C10: parsing the empty template string yields exactly one
unbounded `FRAG` slot — not the empty slot list — so generation over the
empty template works on one `FRAG` slot rather than producing the empty
password. -/
theorem c10_theorem :
    parse_template [] = [(SlotType.FRAG, none)] ∧
    parse_template [] ≠ [] := by
  decide

/-- Counterexample to claim C5 as stated: the part `"WORDx"` has a `WORD`
prefix with a non-integer suffix, which the claim says must map to slot
type `FRAG`; the code maps it to `("WORD", None)`. -/
theorem c5_counterexample :
    parse_template "WORDx".toList = [(SlotType.WORD, none)] ∧
    parse_template "WORDx".toList ≠ [(SlotType.FRAG, none)] := by
  decide

/-- Claim C5 as amended: `parse_template` is total (the Lean function is
total by construction) and maps each part of the split by prefix: a part
with the `WORD`/`DIGITS` prefix yields that slot type — with length `N`
when the suffix is a non-empty integer, and no length otherwise (it does
not fall back to `FRAG`) — the bare `SYMBOL` part yields `SYMBOL`, and
every part with no recognized prefix (including bare `FRAG`) yields
`FRAG` with no length. -/
theorem c5_theorem (template : List Char) :
    parse_template template = (splitBar template).map slotOfPartSpec := by
  unfold parse_template
  refine List.map_congr_left (fun part _ => ?_)
  unfold parsePart slotOfPartSpec decodeLen
  split_ifs with h1 h2 h3 h4 h5 h6 h7 h8 <;> try rfl
  all_goals simp_all [List.drop_eq_nil_iff]

/-- The generator of the C7 counterexample: two known digit strings, the
most frequent (`"1"`) shorter than the longest (`"22"`). -/
def genC7 : PasswordGenerator :=
  { top_words := [], top_digits := [['1'], ['2', '2']], top_frags := [],
    count_map := [] }

/-- Counterexample to claim C7 as stated: on the length-less template
`"DIGITS"`, the claim's fallback upper bound is the longest-known-digit-
string length (here 2), but the code adds `len(self.top_digits[0])` —
the length of the *most frequent* known digit string (here 1). -/
theorem c7_counterexample :
    estimate_template_length genC7 "DIGITS".toList = (1, 1) ∧
    estimate_template_length genC7 "DIGITS".toList ≠
      (1, (genC7.top_digits.map List.length).foldr Nat.max 0) := by
  decide

lemma estimateAux (g : PasswordGenerator)
    (slots : List (SlotType × Option Nat)) (a b : Nat) :
    slots.foldl (fun acc sl =>
      match sl.1 with
      | .DIGITS =>
        if sl.2.getD 0 ≠ 0 then (acc.1 + sl.2.getD 0, acc.2 + sl.2.getD 0)
        else (acc.1 + 1, acc.2 + (match g.top_digits with
                                  | d :: _ => d.length
                                  | [] => 4))
      | .WORD =>
        if sl.2.getD 0 ≠ 0 then (acc.1 + sl.2.getD 0, acc.2 + sl.2.getD 0)
        else (acc.1 + 3, acc.2 + (match g.top_words with
                                  | w :: _ => w.length
                                  | [] => 12))
      | .SYMBOL => (acc.1 + 1, acc.2 + 4)
      | .FRAG => (acc.1 + 3, acc.2 + (match g.top_frags with
                                      | f :: _ => f.length
                                      | [] => 12))) (a, b)
      = (a + (slots.map slotMinSpec).sum, b + (slots.map (slotMaxSpec g)).sum) := by
  induction slots generalizing a b with
  | nil => simp
  | cons s rest ih =>
    obtain ⟨st, n⟩ := s
    simp only [List.foldl_cons, List.map_cons, List.sum_cons]
    cases st <;> cases n
    all_goals
      simp only [Option.getD_some, Option.getD_none, slotMinSpec, slotMaxSpec,
        firstDigitLen, firstWordLen, firstFragLen, ne_eq, eq_self_iff_true,
        not_true_eq_false, if_false]
    all_goals try split_ifs with hk
    all_goals rw [ih]
    all_goals simp only [Prod.mk.injEq]
    all_goals exact ⟨by ring, by ring⟩

/-- Claim C7 as amended: `estimate_template_length` returns the slot-wise
sums of per-slot bounds where a `WORD`/`DIGITS` slot with a *nonzero*
embedded length contributes that length to both bounds (an embedded
length of 0 falls to the fallback, Python truthiness of `if n:`), and a
slot without one contributes the fallback bounds — minima `WORD`/`FRAG`:
3, `DIGITS`/`SYMBOL`: 1; maxima taken from the length of the *first*
(most frequent) entry of the matching pool (`DIGITS`: 4 and
`WORD`/`FRAG`: 12 when the pool is empty; `SYMBOL`: the literal 4). -/
theorem c7_theorem (g : PasswordGenerator) (template : List Char) :
    estimate_template_length g template =
      (((parse_template template).map slotMinSpec).sum,
       ((parse_template template).map (slotMaxSpec g)).sum) := by
  unfold estimate_template_length
  rw [estimateAux]
  simp

/-! ### Template codec round trip (claim C2) -/

lemma natToChars_isDigit (n : Nat) : ∀ c ∈ natToChars n, c.isDigit = true := by
  induction n using Nat.strong_induction_on with
  | _ n ih =>
    rw [natToChars]
    split
    · rename_i h
      intro c hc
      simp only [List.mem_singleton] at hc
      subst hc
      interval_cases n <;> decide
    · rename_i h
      intro c hc
      rw [List.mem_append] at hc
      rcases hc with hc | hc
      · exact ih (n / 10) (Nat.div_lt_self (by omega) (by omega)) c hc
      · simp only [List.mem_singleton] at hc
        subst hc
        have hm : n % 10 < 10 := Nat.mod_lt _ (by omega)
        interval_cases hmod : n % 10 <;> simp_all

lemma natToChars_no_bar (n : Nat) : '|' ∉ natToChars n := by
  intro h
  have := natToChars_isDigit n '|' h
  simp [Char.isDigit] at this

lemma splitBar_noBar (p : List Char) (h : '|' ∉ p) : splitBar p = [p] := by
  induction p with
  | nil => rfl
  | cons c rest ih =>
    have hc : c ≠ '|' := fun hc => h (hc ▸ List.mem_cons_self c rest)
    have hrest : '|' ∉ rest := fun hm => h (List.mem_cons_of_mem c hm)
    simp [splitBar, hc, ih hrest]

lemma splitBar_append_bar (p s : List Char) (h : '|' ∉ p) :
    splitBar (p ++ '|' :: s) = p :: splitBar s := by
  induction p with
  | nil => simp [splitBar]
  | cons c rest ih =>
    have hc : c ≠ '|' := fun hc => h (hc ▸ List.mem_cons_self c rest)
    have hrest : '|' ∉ rest := fun hm => h (List.mem_cons_of_mem c hm)
    simp [splitBar, hc, ih hrest]

lemma splitBar_intercalate (parts : List (List Char)) (hne : parts ≠ [])
    (h : ∀ p ∈ parts, '|' ∉ p) :
    splitBar (List.intercalate ['|'] parts) = parts := by
  induction parts with
  | nil => exact absurd rfl hne
  | cons p rest ih =>
    cases rest with
    | nil =>
      have : List.intercalate ['|'] [p] = p := by simp [List.intercalate]
      rw [this, splitBar_noBar p (h p (List.mem_cons_self p []))]
    | cons q qs =>
      have hstep : List.intercalate ['|'] (p :: q :: qs) =
          p ++ '|' :: List.intercalate ['|'] (q :: qs) := by
        simp [List.intercalate, List.intersperse]
      rw [hstep, splitBar_append_bar p _ (h p (List.mem_cons_self p _)),
        ih (by simp) (fun x hx => h x (List.mem_cons_of_mem p hx))]

lemma runsOf_cons_ne_nil (c : Char) (s : List Char) : runsOf (c :: s) ≠ [] := by
  rw [runsOf]
  rcases runsOf s with _ | ⟨_ | ⟨d, g⟩, gs⟩ <;> try simp
  split <;> simp

lemma word_not_prefixOf_digits (ds : List Char) :
    "WORD".toList.isPrefixOf ("DIGITS".toList ++ ds) = false := by
  rw [Bool.eq_false_iff]
  intro hpre
  rw [List.isPrefixOf_iff_prefix] at hpre
  rw [show "WORD".toList = 'W' :: "ORD".toList from rfl,
    show "DIGITS".toList ++ ds = 'D' :: ("IGITS".toList ++ ds) from rfl,
    List.cons_prefix_cons] at hpre
  exact absurd hpre.1 (by decide)

lemma parsePart_digits_token (ds : List Char) :
    (parsePart ("DIGITS".toList ++ ds)).1 = .DIGITS := by
  have h2 : "DIGITS".toList.isPrefixOf ("DIGITS".toList ++ ds) = true := by
    rw [List.isPrefixOf_iff_prefix]
    exact List.prefix_append _ _
  simp [parsePart, word_not_prefixOf_digits, h2]

lemma parsePart_word_token (ds : List Char) :
    (parsePart ("WORD".toList ++ ds)).1 = .WORD := by
  have h1 : "WORD".toList.isPrefixOf ("WORD".toList ++ ds) = true := by
    rw [List.isPrefixOf_iff_prefix]
    exact List.prefix_append _ _
  simp [parsePart, h1]

/-- The classifier's template token is always one of the four literal
forms, paired with its slot type. -/
lemma classifyToken_cases (vocab : List (List Char)) (dl uv : Bool) (r : List Char) :
    (∃ n, (classify_run vocab dl uv r).1 = .DIGITS ∧
          (classify_run vocab dl uv r).2.2 = "DIGITS".toList ++ natToChars n) ∨
    (∃ n, (classify_run vocab dl uv r).1 = .WORD ∧
          (classify_run vocab dl uv r).2.2 = "WORD".toList ++ natToChars n) ∨
    ((classify_run vocab dl uv r).1 = .FRAG ∧
          (classify_run vocab dl uv r).2.2 = "FRAG".toList) ∨
    ((classify_run vocab dl uv r).1 = .SYMBOL ∧
          (classify_run vocab dl uv r).2.2 = "SYMBOL".toList) := by
  unfold classify_run
  dsimp only
  split_ifs <;>
    first
    | exact Or.inl ⟨_, rfl, rfl⟩
    | exact Or.inr (Or.inl ⟨_, rfl, rfl⟩)
    | exact Or.inr (Or.inr (Or.inl ⟨rfl, rfl⟩))
    | exact Or.inr (Or.inr (Or.inr ⟨rfl, rfl⟩))

/-- The template token of any classified run is non-empty, contains no
separator, and decodes (via `parse_template`'s per-part branch) to the
very slot type the classifier assigned. -/
lemma classifyTokenFacts (vocab : List (List Char)) (doLeet useVocab : Bool)
    (r : List Char) :
    (classify_run vocab doLeet useVocab r).2.2 ≠ [] ∧
    '|' ∉ (classify_run vocab doLeet useVocab r).2.2 ∧
    (parsePart (classify_run vocab doLeet useVocab r).2.2).1 =
      (classify_run vocab doLeet useVocab r).1 := by
  rcases classifyToken_cases vocab doLeet useVocab r with
    ⟨n, h1, h2⟩ | ⟨n, h1, h2⟩ | ⟨h1, h2⟩ | ⟨h1, h2⟩ <;> rw [h2, h1]
  · refine ⟨by simp, ?_, parsePart_digits_token _⟩
    intro hm
    rw [List.mem_append] at hm
    rcases hm with hm | hm
    · revert hm; decide
    · exact natToChars_no_bar _ hm
  · refine ⟨by simp, ?_, parsePart_word_token _⟩
    intro hm
    rw [List.mem_append] at hm
    rcases hm with hm | hm
    · revert hm; decide
    · exact natToChars_no_bar _ hm
  · exact ⟨by decide, by decide, by decide⟩
  · exact ⟨by decide, by decide, by decide⟩

/-- Counterexample to claim C2 as stated: for a whitespace-only password
the classifier produces no runs and the empty template, but decoding the
empty template yields one `FRAG` slot — the decoded slot-type sequence is
not the encoded one. -/
theorem c2_counterexample :
    (parse_template (tokenize [] false true [' ']).2).map Prod.fst = [SlotType.FRAG] ∧
    (runsOf (stripChars [' '])).map
      (fun r => (classify_run [] false true r).1) = [] := by
  decide

/-- Claim C2 as amended: for every password whose stripped form is
non-empty, the ordered slot types obtained by decoding the encoded
template are exactly the slot types the classifier assigned to the runs
of the stripped password, in order. -/
theorem c2_theorem (vocab : List (List Char)) (doLeet useVocab : Bool)
    (pw : List Char) (h : stripChars pw ≠ []) :
    (parse_template (tokenize vocab doLeet useVocab pw).2).map Prod.fst =
      (runsOf (stripChars pw)).map
        (fun r => (classify_run vocab doLeet useVocab r).1) := by
  have hrs : runsOf (stripChars pw) ≠ [] := by
    rcases hsp : stripChars pw with _ | ⟨c, s⟩
    · exact absurd hsp h
    · exact runsOf_cons_ne_nil c s
  have htok : (tokenize vocab doLeet useVocab pw).2 =
      List.intercalate ['|'] ((runsOf (stripChars pw)).map
        (fun r => (classify_run vocab doLeet useVocab r).2.2)) := by
    unfold tokenize
    dsimp only
    rw [List.map_map]
    rfl
  rw [htok]
  unfold parse_template
  rw [splitBar_intercalate _ (by simpa using hrs)
    (by
      intro p hp
      rw [List.mem_map] at hp
      obtain ⟨r, _, hr⟩ := hp
      exact hr ▸ (classifyTokenFacts vocab doLeet useVocab r).2.1)]
  rw [List.map_map, List.map_map]
  exact List.map_congr_left (fun r _ =>
    (classifyTokenFacts vocab doLeet useVocab r).2.2)

/-- Witness for the amended claim C2 at the concrete password `"a1"`. -/
theorem c2_witness :
    stripChars ['a', '1'] ≠ [] ∧
    (parse_template (tokenize [] false true ['a', '1']).2).map Prod.fst =
      (runsOf (stripChars ['a', '1'])).map
        (fun r => (classify_run [] false true r).1) :=
  ⟨by decide, c2_theorem [] false true ['a', '1'] (by decide)⟩

/-! ### The training invariant (claim C1) -/

lemma ctotal_cincr {α : Type} [DecidableEq α] (c : Counter α) (k : α) :
    ctotal (cincr c k) = ctotal c + 1 := by
  induction c with
  | nil => rfl
  | cons e rest ih =>
    obtain ⟨a, n⟩ := e
    unfold cincr
    split_ifs with ha
    · simp [ctotal]
      omega
    · simp [ctotal] at ih ⊢
      omega

lemma slotFold_fields (vocab : List (List Char)) (useVocab : Bool)
    (rs : List (List Char)) (m : PCFGLite) :
    let fold := rs.foldl (fun acc r =>
      let cl := classify_run vocab acc.do_leet useVocab r
      { acc with slot_counts := fun st =>
          if st = cl.1 then cincr (acc.slot_counts st) cl.2.1
          else acc.slot_counts st }) m
    fold.template_counts = m.template_counts ∧
    fold.total_templates = m.total_templates := by
  induction rs generalizing m with
  | nil => exact ⟨rfl, rfl⟩
  | cons r rest ih => exact ih _

lemma fitOne_fields (vocab : List (List Char)) (useVocab : Bool)
    (m : PCFGLite) (pw : List Char) :
    (fitOne vocab useVocab m pw).template_counts =
      cincr m.template_counts (tokenize vocab m.do_leet useVocab pw).2 ∧
    (fitOne vocab useVocab m pw).total_templates = m.total_templates + 1 := by
  unfold fitOne
  exact slotFold_fields vocab useVocab _ _

lemma invariantTT_fitOne (vocab : List (List Char)) (useVocab : Bool)
    (m : PCFGLite) (pw : List Char) (h : invariantTT m) :
    invariantTT (fitOne vocab useVocab m pw) := by
  unfold invariantTT at h ⊢
  rw [(fitOne_fields vocab useVocab m pw).1, (fitOne_fields vocab useVocab m pw).2,
    ctotal_cincr, h]

lemma trim_fields (m : PCFGLite) (topN : Nat) :
    (trim_slot_counts m topN).total_templates = m.total_templates ∧
    (trim_slot_counts m topN).template_counts = m.template_counts :=
  ⟨rfl, rfl⟩

lemma invariantTT_fitListAux (vocab : List (List Char)) (useVocab : Bool)
    (maxSamples trimTopN : Option Nat) (pws : List (List Char))
    (i processed : Nat) (m : PCFGLite) (h : invariantTT m) :
    invariantTT (fitListAux vocab useVocab maxSamples trimTopN pws i processed m) := by
  induction pws generalizing i processed m with
  | nil => exact h
  | cons pw rest ih =>
    unfold fitListAux
    split_ifs with h1 h2
    · exact h
    · exact ih _ _ _ h
    · apply ih
      have hf := invariantTT_fitOne vocab useVocab m pw h
      unfold invariantTT at hf ⊢
      split_ifs
      · exact hf
      · exact hf

lemma invariantTT_applyOp (vocab : List (List Char)) (m : PCFGLite)
    (op : ModelOp) (h : invariantTT m) : invariantTT (applyOp vocab m op) := by
  cases op with
  | fitListOp pws maxSamples useVocab trimTopN =>
    exact invariantTT_fitListAux vocab useVocab maxSamples trimTopN pws 0 0 m h
  | fitFileOp lines maxLines useVocab trimTopN =>
    show invariantTT (fit_file vocab m lines maxLines useVocab trimTopN)
    unfold fit_file
    split <;> exact invariantTT_fitListAux _ _ _ _ _ _ _ _ h
  | trimOp topN => exact h

/-- Claim C1: starting from a fresh model, after any sequence of
completed `fit_list`/`fit_file` calls with any parameters (periodic
trimming included) and explicit trims, `sum(template_counts.values())`
equals `total_templates`; moreover `trim_slot_counts` never changes
`total_templates` or `template_counts` of any model. -/
theorem c1_theorem (vocab : List (List Char)) (alpha : ℚ) (doLeet : Bool)
    (ops : List ModelOp) (m : PCFGLite) (topN : Nat) :
    invariantTT (applyOps vocab (initModel alpha doLeet) ops) ∧
    (trim_slot_counts m topN).total_templates = m.total_templates ∧
    (trim_slot_counts m topN).template_counts = m.template_counts := by
  refine ⟨?_, rfl, rfl⟩
  have hbase : invariantTT (initModel alpha doLeet) := rfl
  unfold applyOps
  generalize initModel alpha doLeet = m0 at hbase ⊢
  induction ops generalizing m0 with
  | nil => exact hbase
  | cons op rest ih =>
    exact ih _ (invariantTT_applyOp vocab m0 op hbase)

/-! ### Smoothed probabilities (claim C3) -/

lemma cget_le_ctotal {α : Type} [DecidableEq α] (c : Counter α) (k : α) :
    cget c k ≤ ctotal c := by
  induction c with
  | nil => exact Nat.le_refl 0
  | cons e rest ih =>
    obtain ⟨a, n⟩ := e
    unfold cget
    simp only [ctotal, List.map_cons, List.sum_cons]
    split_ifs
    · omega
    · simp only [ctotal] at ih
      omega

lemma smoothed_bounds (c T V : Nat) (a : ℚ) (ha : 0 < a) (hcT : c ≤ T) :
    0 < ((c : ℚ) + a) / ((T : ℚ) + a * ((V : ℚ) + 1)) ∧
    ((c : ℚ) + a) / ((T : ℚ) + a * ((V : ℚ) + 1)) ≤ 1 := by
  have hden : (0 : ℚ) < (T : ℚ) + a * ((V : ℚ) + 1) := by positivity
  constructor
  · apply div_pos _ hden
    positivity
  · rw [div_le_one hden]
    have hc : (c : ℚ) ≤ (T : ℚ) := by exact_mod_cast hcT
    have hV : (0 : ℚ) ≤ (V : ℚ) := by positivity
    nlinarith

/-- Claim C3: for every model whose smoothing parameter is positive and
which satisfies the data-model invariant (`total_templates` equals the
sum of the template counts — maintained by every training sequence, by
`c1_theorem`), both smoothed probabilities lie in `(0, 1]`, for any
template and any (slot type, token) pair, seen or unseen. -/
theorem c3_theorem (m : PCFGLite) (template token : List Char) (slot : SlotType)
    (ha : 0 < m.alpha) (hinv : invariantTT m) :
    (0 < template_prob m template ∧ template_prob m template ≤ 1) ∧
    (0 < slot_token_prob m slot token ∧ slot_token_prob m slot token ≤ 1) := by
  constructor
  · have hc : cget m.template_counts template ≤ m.total_templates := by
      rw [← hinv]
      exact cget_le_ctotal m.template_counts template
    exact smoothed_bounds _ _ _ _ ha hc
  · exact smoothed_bounds _ _ _ _ ha (cget_le_ctotal (m.slot_counts slot) token)

/-- Witness for claim C3 at a fresh model with `alpha = 1`, an unseen
template and an unseen token. -/
theorem c3_witness :
    0 < (initModel 1 false).alpha ∧ invariantTT (initModel 1 false) ∧
    ((0 < template_prob (initModel 1 false) ['a'] ∧
      template_prob (initModel 1 false) ['a'] ≤ 1) ∧
     (0 < slot_token_prob (initModel 1 false) .FRAG ['a'] ∧
      slot_token_prob (initModel 1 false) .FRAG ['a'] ≤ 1)) :=
  ⟨by norm_num [initModel], rfl,
   c3_theorem (initModel 1 false) ['a'] ['a'] .FRAG (by norm_num [initModel]) rfl⟩

/-! ### Beam-search bounds (claim C4) -/

lemma mem_expandSlot_length (g : PasswordGenerator) (logQ : Nat → ℚ)
    (topk : Nat) (beam : List (List Char × ℚ)) (slot : SlotType)
    (p : List Char × ℚ) (hp : p ∈ expandSlot g logQ topk beam slot) :
    p.1.length ≤ MAX_PASSWORD_LENGTH := by
  unfold expandSlot at hp
  rw [List.mem_flatMap] at hp
  obtain ⟨q, _, hmem⟩ := hp
  rw [List.mem_filterMap] at hmem
  obtain ⟨tok, _, heq⟩ := hmem
  dsimp only at heq
  split_ifs at heq with hlen
  rw [Option.some_inj] at heq
  rw [← heq]
  dsimp only
  omega

lemma beamLoop_length_inv (g : PasswordGenerator) (logQ : Nat → ℚ)
    (topk prune : Nat) (slots : List (SlotType × Option Nat))
    (beam : List (List Char × ℚ))
    (hb : ∀ p ∈ beam, p.1.length ≤ MAX_PASSWORD_LENGTH) :
    ∀ p ∈ beamLoop g logQ topk prune slots beam,
      p.1.length ≤ MAX_PASSWORD_LENGTH := by
  induction slots generalizing beam with
  | nil => exact hb
  | cons sl rest ih =>
    obtain ⟨slot, n⟩ := sl
    unfold beamLoop
    dsimp only
    have hbm : ∀ p ∈ ((expandSlot g logQ topk beam slot).mergeSort scoreGe).take prune,
        p.1.length ≤ MAX_PASSWORD_LENGTH := by
      intro p hp
      have h1 : p ∈ (expandSlot g logQ topk beam slot).mergeSort scoreGe :=
        (List.take_sublist _ _).mem hp
      have h2 : p ∈ expandSlot g logQ topk beam slot :=
        (List.mergeSort_perm _ scoreGe).mem_iff.mp h1
      exact mem_expandSlot_length g logQ topk beam slot p h2
    split_ifs with hnil
    · rw [hnil]
      intro p hp
      exact absurd hp (List.not_mem_nil p)
    · exact ih _ hbm

lemma scoreGe_trans (a b c : List Char × ℚ) :
    scoreGe a b = true → scoreGe b c = true → scoreGe a c = true := by
  unfold scoreGe
  intro h1 h2
  rw [decide_eq_true_eq] at h1 h2 ⊢
  exact h2.trans h1

lemma scoreGe_total (a b : List Char × ℚ) : (scoreGe a b || scoreGe b a) = true := by
  unfold scoreGe
  rcases le_total a.2 b.2 with h | h <;> simp [h]

/-- Claim C4: every candidate yielded by the deterministic beam search
has length at most `MAX_PASSWORD_LENGTH` and at least `min_len`, at most
`max_out` candidates are yielded, and they come in non-increasing score
order — for every generator, every modelling of the float logarithm,
every template and all parameters. -/
theorem c4_theorem (g : PasswordGenerator) (logQ : Nat → ℚ) (template : List Char)
    (topkPerSlot pruneBeam minLen maxOut : Nat) :
    (∀ p ∈ generate_deterministic g logQ template topkPerSlot pruneBeam minLen maxOut,
       minLen ≤ p.1.length ∧ p.1.length ≤ MAX_PASSWORD_LENGTH) ∧
    (generate_deterministic g logQ template topkPerSlot pruneBeam minLen maxOut).length
      ≤ maxOut ∧
    (generate_deterministic g logQ template topkPerSlot pruneBeam minLen maxOut).Pairwise
      (fun a b => b.2 ≤ a.2) := by
  unfold generate_deterministic
  refine ⟨?_, ?_, ?_⟩
  · intro p hp
    have h1 : p ∈ ((beamLoop g logQ topkPerSlot pruneBeam (parse_template template)
        [([], 0)]).filter (fun p => decide (p.1.length ≥ minLen))).mergeSort scoreGe :=
      (List.take_sublist _ _).mem hp
    have h2 := (List.mergeSort_perm _ scoreGe).mem_iff.mp h1
    rw [List.mem_filter] at h2
    obtain ⟨hmem, hlen⟩ := h2
    rw [decide_eq_true_eq] at hlen
    refine ⟨hlen, ?_⟩
    refine beamLoop_length_inv g logQ topkPerSlot pruneBeam (parse_template template)
      [([], 0)] ?_ p hmem
    intro q hq
    rw [List.mem_singleton] at hq
    rw [hq]
    simp [MAX_PASSWORD_LENGTH]
  · rw [List.length_take]
    exact Nat.min_le_left _ _
  · have hsorted := List.sorted_mergeSort scoreGe_trans scoreGe_total
      ((beamLoop g logQ topkPerSlot pruneBeam (parse_template template)
        [([], 0)]).filter (fun p => decide (p.1.length ≥ minLen)))
    have htake := hsorted.sublist (List.take_sublist maxOut _)
    exact htake.imp (fun h => by
      rw [scoreGe, decide_eq_true_eq] at h
      exact h)

/-! ### Persistence errors (claim C6) -/

/-- Counterexample to claim C6 as stated: the pickle of a dict that
carries none of the model's keys (for instance the pickle of `{}`) was
not produced by `save` — every `save` output is a dict whose
`__pcfg_state_v1` key is truthy — yet `load` accepts it silently and
returns the empty (zero-count, default-parameter) model. -/
theorem c6_counterexample :
    hasStateMarker (.pdictV false none blankState) = false ∧
    loadState (.pickleOf (.pdictV false none blankState)) =
      .ok (initModel 1 false) := by
  constructor
  · rfl
  · show Except.ok (modelFromState blankState) = Except.ok (initModel 1 false)
    rfl

/-- Claim C6 as amended: `load` does fail with the distinguishable
`FileNotFoundError` when the path does not exist and with
`pickle.UnpicklingError` when the content is not a pickle, and it
round-trips every `save` output (whose wrapper dict always carries a
truthy `__pcfg_state_v1` marker); but a pickled dict *without* the
marker is read as a bare state dict whose missing fields default, so
`load` silently returns an empty model on such a file even though no
`save` produced it. -/
theorem c6_theorem (m : PCFGLite) :
    loadState .missing = .error .fileNotFound ∧
    loadState .notAPickle = .error .unpicklingError ∧
    hasStateMarker (saveState m) = true ∧
    loadState (.pickleOf (saveState m)) = .ok m ∧
    loadState (.pickleOf (.pdictV false none blankState)) =
      .ok (initModel 1 false) := by
  refine ⟨rfl, rfl, rfl, ?_, rfl⟩
  show Except.ok (modelFromState
    { template_counts := some m.template_counts,
      slot_counts := some m.slot_counts,
      total_templates := some m.total_templates,
      alpha := some m.alpha,
      do_leet := some m.do_leet }) = Except.ok m
  rfl

/-! ### Combiner idempotence (claim C8) -/

lemma dropWhile_head_not (p : Char → Bool) (l : List Char) :
    ∀ c, (l.dropWhile p).head? = some c → p c = false := by
  induction l with
  | nil => intro c hc; simp at hc
  | cons a l ih =>
    intro c hc
    rw [List.dropWhile_cons] at hc
    split_ifs at hc with ha
    · exact ih c hc
    · rw [List.head?_cons, Option.some_inj] at hc
      rw [← hc]
      exact Bool.of_not_eq_true ha

lemma dropWhile_eq_self_of_head (p : Char → Bool) (l : List Char)
    (h : ∀ c, l.head? = some c → p c = false) : l.dropWhile p = l := by
  cases l with
  | nil => rfl
  | cons a l =>
    rw [List.dropWhile_cons, if_neg]
    rw [h a rfl]
    simp

lemma getLast?_dropWhile (p : Char → Bool) (l : List Char)
    (hne : l.dropWhile p ≠ []) : (l.dropWhile p).getLast? = l.getLast? := by
  obtain ⟨t, ht⟩ := List.dropWhile_suffix p (l := l)
  conv_rhs => rw [← ht]
  rw [List.getLast?_append]
  rcases hg : (l.dropWhile p).getLast? with _ | c
  · rw [List.getLast?_eq_none_iff] at hg
    exact absurd hg hne
  · rfl

lemma stripChars_head_not_ws (s : List Char) :
    ∀ c, (stripChars s).head? = some c → c.isWhitespace = false := by
  intro c hc
  unfold stripChars at hc
  rw [List.head?_reverse] at hc
  by_cases hne : ((s.dropWhile Char.isWhitespace).reverse.dropWhile Char.isWhitespace) = []
  · rw [hne] at hc
    simp at hc
  · rw [getLast?_dropWhile _ _ hne, List.getLast?_reverse] at hc
    exact dropWhile_head_not _ _ c hc

lemma stripChars_getLast_not_ws (s : List Char) :
    ∀ c, (stripChars s).getLast? = some c → c.isWhitespace = false := by
  intro c hc
  unfold stripChars at hc
  rw [List.getLast?_reverse] at hc
  exact dropWhile_head_not _ _ c hc

lemma stripChars_of_clean (s : List Char)
    (h1 : ∀ c, s.head? = some c → c.isWhitespace = false)
    (h2 : ∀ c, s.getLast? = some c → c.isWhitespace = false) :
    stripChars s = s := by
  unfold stripChars
  rw [dropWhile_eq_self_of_head _ _ h1]
  rw [dropWhile_eq_self_of_head _ _ (by
    intro c hc
    rw [List.head?_reverse] at hc
    exact h2 c hc)]
  exact List.reverse_reverse s

lemma stripChars_idem (s : List Char) :
    stripChars (stripChars s) = stripChars s :=
  stripChars_of_clean _ (stripChars_head_not_ws s) (stripChars_getLast_not_ws s)

lemma mem_of_mem_stripChars {a : Char} {s : List Char} (h : a ∈ stripChars s) :
    a ∈ s := by
  unfold stripChars at h
  rw [List.mem_reverse] at h
  have h2 := (List.dropWhile_suffix _).sublist.mem h
  rw [List.mem_reverse] at h2
  exact (List.dropWhile_suffix _).sublist.mem h2

lemma splitLines_cons_cr (rest : List Char) (h : ∀ r1, rest ≠ '\n' :: r1) :
    splitLines ('\r' :: rest) = [] :: splitLines rest := by
  rw [splitLines.eq_def]
  split <;> simp_all [eq_comm]

lemma splitLines_cons_other (c : Char) (rest : List Char)
    (h2 : c ≠ '\r') (h3 : c ≠ '\n') :
    splitLines (c :: rest) =
      match splitLines rest with
      | [] => [[c]]
      | l :: ls => (c :: l) :: ls := by
  rw [splitLines.eq_def]
  split <;> simp_all

lemma splitLines_ne_nil (s : List Char) : splitLines s ≠ [] := by
  rw [splitLines.eq_def]
  split <;> first
    | (split <;> simp)
    | simp

lemma splitLines_mem_clean (s : List Char) :
    ∀ p ∈ splitLines s, '\n' ∉ p ∧ '\r' ∉ p := by
  induction s using splitLines.induct with
  | case1 =>
    intro p hp
    rw [show splitLines [] = [[]] from rfl, List.mem_singleton] at hp
    simp [hp]
  | case2 rest ih =>
    intro p hp
    rw [show splitLines ('\r' :: '\n' :: rest) = [] :: splitLines rest from rfl,
      List.mem_cons] at hp
    rcases hp with hp | hp
    · simp [hp]
    · exact ih p hp
  | case3 rest h1 ih =>
    intro p hp
    rw [splitLines_cons_cr rest (fun r1 hr => h1 r1 hr), List.mem_cons] at hp
    rcases hp with hp | hp
    · simp [hp]
    · exact ih p hp
  | case4 rest ih =>
    intro p hp
    rw [show splitLines ('\n' :: rest) = [] :: splitLines rest from rfl,
      List.mem_cons] at hp
    rcases hp with hp | hp
    · simp [hp]
    · exact ih p hp
  | case5 c rest h1 h2 h3 heq ih =>
    exact absurd heq (splitLines_ne_nil rest)
  | case6 c rest h1 h2 h3 l ls heq ih =>
    intro p hp
    rw [splitLines_cons_other c rest (fun h => h2 h) (fun h => h3 h), heq] at hp
    have hl := ih l (by rw [heq]; exact List.mem_cons_self l ls)
    rcases List.mem_cons.mp hp with hp | hp
    · subst hp
      constructor
      · intro hm
        rcases List.mem_cons.mp hm with hm | hm
        · exact h3 hm.symm
        · exact hl.1 hm
      · intro hm
        rcases List.mem_cons.mp hm with hm | hm
        · exact h2 hm.symm
        · exact hl.2 hm
    · exact ih p (by rw [heq]; exact List.mem_cons_of_mem l hp)

lemma splitLines_clean_append (p s : List Char)
    (h1 : '\n' ∉ p) (h2 : '\r' ∉ p) :
    splitLines (p ++ '\n' :: s) = p :: splitLines s := by
  induction p with
  | nil => rfl
  | cons c p ih =>
    have hc2 : c ≠ '\r' := fun hc => h2 (hc ▸ List.mem_cons_self c p)
    have hc3 : c ≠ '\n' := fun hc => h1 (hc ▸ List.mem_cons_self c p)
    rw [List.cons_append,
      splitLines_cons_other c _ hc2 hc3,
      ih (fun hm => h1 (List.mem_cons_of_mem c hm))
         (fun hm => h2 (List.mem_cons_of_mem c hm))]

lemma splitLines_writeLines (cs : List (List Char))
    (h : ∀ c ∈ cs, '\n' ∉ c ∧ '\r' ∉ c) :
    splitLines ((cs.map (fun c => c ++ ['\n'])).flatten) = cs ++ [[]] := by
  induction cs with
  | nil => rfl
  | cons c rest ih =>
    have hc := h c (List.mem_cons_self c rest)
    rw [List.map_cons, List.flatten_cons, List.append_assoc]
    rw [show ['\n'] ++ (rest.map (fun c => c ++ ['\n'])).flatten =
      '\n' :: (rest.map (fun c => c ++ ['\n'])).flatten from rfl]
    rw [splitLines_clean_append c _ hc.1 hc.2,
      ih (fun x hx => h x (List.mem_cons_of_mem c hx))]
    rfl

lemma lexLe_trans (a b c : List Char) (h1 : lexLe a b = true)
    (h2 : lexLe b c = true) : lexLe a c = true := by
  induction a generalizing b c with
  | nil => rfl
  | cons x xs ih =>
    cases b with
    | nil => simp [lexLe] at h1
    | cons y ys =>
      cases c with
      | nil => simp [lexLe] at h2
      | cons z zs =>
        unfold lexLe at h1 h2 ⊢
        by_cases hxy : x < y
        · by_cases hyz : y < z
          · rw [if_pos (lt_trans hxy hyz)]
          · by_cases hzy : z < y
            · rw [if_neg hyz, if_pos hzy] at h2
              exact absurd h2 (by simp)
            · have hyz' : y = z := le_antisymm (not_lt.mp hzy) (not_lt.mp hyz)
              subst hyz'
              rw [if_pos hxy]
        · by_cases hyx : y < x
          · rw [if_neg hxy, if_pos hyx] at h1
            exact absurd h1 (by simp)
          · have hxy' : x = y := le_antisymm (not_lt.mp hyx) (not_lt.mp hxy)
            subst hxy'
            rw [if_neg hxy, if_neg hyx] at h1
            by_cases hxz : x < z
            · rw [if_pos hxz]
            · by_cases hzx : z < x
              · rw [if_neg hxz, if_pos hzx] at h2
                exact absurd h2 (by simp)
              · rw [if_neg hxz, if_neg hzx] at h2 ⊢
                exact ih ys zs h1 h2

lemma lexLe_total (a b : List Char) : (lexLe a b || lexLe b a) = true := by
  induction a generalizing b with
  | nil => simp [lexLe]
  | cons x xs ih =>
    cases b with
    | nil => simp [lexLe]
    | cons y ys =>
      unfold lexLe
      rcases lt_trichotomy x y with h | h | h
      · simp [h, asymm h]
      · subst h
        simp only [lt_irrefl, if_false]
        exact ih ys
      · simp [h, asymm h]

/-- What holds of every candidate the combiner keeps: non-empty, already
stripped, and free of line terminators. -/
def cleanCand (c : List Char) : Prop :=
  c ≠ [] ∧ stripChars c = c ∧ '\n' ∉ c ∧ '\r' ∉ c

lemma candidatesOfContent_clean (content : List Char) :
    ∀ c ∈ candidatesOfContent content, cleanCand c := by
  intro c hc
  unfold candidatesOfContent at hc
  rw [List.mem_filter] at hc
  obtain ⟨hmem, hne⟩ := hc
  rw [decide_eq_true_eq] at hne
  rw [List.mem_map] at hmem
  obtain ⟨p, hp, hps⟩ := hmem
  have hpc := splitLines_mem_clean content p hp
  refine ⟨hne, ?_, ?_, ?_⟩
  · rw [← hps]
    exact stripChars_idem p
  · intro hm
    exact hpc.1 (mem_of_mem_stripChars (hps ▸ hm))
  · intro hm
    exact hpc.2 (mem_of_mem_stripChars (hps ▸ hm))

lemma combineFold_clean (files : List (Option (List Char)))
    (acc : List (List Char)) (hacc : ∀ c ∈ acc, cleanCand c) :
    ∀ c ∈ files.foldl (fun acc f =>
      match f with
      | none => acc
      | some content => acc ++ candidatesOfContent content) acc, cleanCand c := by
  induction files generalizing acc with
  | nil => exact hacc
  | cons f rest ih =>
    cases f with
    | none => exact ih acc hacc
    | some content =>
      apply ih
      intro c hc
      rw [List.mem_append] at hc
      rcases hc with hc | hc
      · exact hacc c hc
      · exact candidatesOfContent_clean content c hc

lemma combineSet_clean (files : List (Option (List Char))) :
    ∀ c ∈ combineSet files, cleanCand c := by
  intro c hc
  unfold combineSet at hc
  have h1 := (List.mergeSort_perm _ lexLe).mem_iff.mp hc
  have h2 := (List.dedup_sublist _).mem h1
  exact combineFold_clean files [] (by simp) c h2

lemma combineSet_nodup (files : List (Option (List Char))) :
    (combineSet files).Nodup := by
  unfold combineSet
  exact (List.mergeSort_perm _ lexLe).symm.nodup (List.nodup_dedup _)

lemma combineSet_sorted (files : List (Option (List Char))) :
    (combineSet files).Pairwise (fun a b => lexLe a b = true) := by
  unfold combineSet
  exact List.sorted_mergeSort lexLe_trans lexLe_total _

/-- Claim C8: the combiner is idempotent — re-combining the output file
of a previous combine reproduces exactly the same sorted, deduplicated
output (and hence the same candidate set). -/
theorem c8_theorem (files : List (Option (List Char))) :
    combine_and_dedupe_candidates [some (combine_and_dedupe_candidates files)] =
      combine_and_dedupe_candidates files := by
  have hclean := combineSet_clean files
  have hco : candidatesOfContent (combine_and_dedupe_candidates files) =
      combineSet files := by
    unfold candidatesOfContent combine_and_dedupe_candidates
    rw [splitLines_writeLines _ (fun c hc =>
      ⟨(hclean c hc).2.2.1, (hclean c hc).2.2.2⟩)]
    rw [List.map_append, List.filter_append]
    have hmap : (combineSet files).map stripChars = combineSet files := by
      conv_rhs => rw [← List.map_id (combineSet files)]
      exact List.map_congr_left (fun a ha => (hclean a ha).2.1)
    rw [hmap]
    rw [show (([[]] : List (List Char)).map stripChars).filter
      (fun l => decide (l ≠ [])) = [] from rfl]
    rw [List.append_nil]
    rw [List.filter_eq_self.mpr (fun a ha => decide_eq_true (hclean a ha).1)]
  have hkey : combineSet [some (combine_and_dedupe_candidates files)] =
      combineSet files := by
    show ([] ++ candidatesOfContent
      (combine_and_dedupe_candidates files)).dedup.mergeSort lexLe = combineSet files
    rw [List.nil_append, hco, (combineSet_nodup files).dedup]
    exact List.mergeSort_of_sorted (combineSet_sorted files)
  have hrfl : ∀ fs, combine_and_dedupe_candidates fs =
      ((combineSet fs).map (fun c => c ++ ['\n'])).flatten := fun _ => rfl
  rw [hrfl [some (combine_and_dedupe_candidates files)], hkey, ← hrfl files]

/-! ### Whitespace and scoring (claim C9) -/

lemma dropWhile_ws_append (w s : List Char)
    (hw : ∀ c ∈ w, c.isWhitespace = true) :
    (w ++ s).dropWhile Char.isWhitespace = s.dropWhile Char.isWhitespace := by
  induction w with
  | nil => rfl
  | cons c w ih =>
    rw [List.cons_append, List.dropWhile_cons,
      if_pos (hw c (List.mem_cons_self c w)),
      ih (fun x hx => hw x (List.mem_cons_of_mem c hx))]

lemma dropWhile_append_of_ne_nil (p : Char → Bool) (a b : List Char)
    (h : a.dropWhile p ≠ []) :
    (a ++ b).dropWhile p = a.dropWhile p ++ b := by
  rw [List.dropWhile_append, if_neg]
  simp [List.isEmpty_iff, h]

lemma stripChars_sandwich (w1 w2 pw : List Char)
    (h1 : ∀ c ∈ w1, c.isWhitespace = true)
    (h2 : ∀ c ∈ w2, c.isWhitespace = true) :
    stripChars (w1 ++ pw ++ w2) = stripChars pw := by
  unfold stripChars
  rw [List.append_assoc, dropWhile_ws_append w1 _ h1]
  by_cases hnil : pw.dropWhile Char.isWhitespace = []
  · have hw2 : w2.dropWhile Char.isWhitespace = [] :=
      List.dropWhile_eq_nil_iff.mpr h2
    have hall : (pw ++ w2).dropWhile Char.isWhitespace = [] := by
      rw [List.dropWhile_append, if_pos (by simp [List.isEmpty_iff, hnil])]
      exact hw2
    rw [hall, hnil]
  · rw [dropWhile_append_of_ne_nil _ _ _ hnil, List.reverse_append,
      dropWhile_ws_append w2.reverse _
        (fun c hc => h2 c (List.mem_reverse.mp hc))]

/-- Claim C9 as amended: adding leading and/or trailing whitespace to a
password never changes the result of `tokenize` (token list and template
alike), because the classifier strips surrounding whitespace before
splitting into runs.  (The scoring part of the original claim is false:
see the counterexample.) -/
theorem c9_theorem (vocab : List (List Char)) (doLeet useVocab : Bool)
    (pw w1 w2 : List Char)
    (h1 : ∀ c ∈ w1, c.isWhitespace = true)
    (h2 : ∀ c ∈ w2, c.isWhitespace = true) :
    tokenize vocab doLeet useVocab (w1 ++ pw ++ w2) =
      tokenize vocab doLeet useVocab pw := by
  unfold tokenize
  rw [stripChars_sandwich w1 w2 pw h1 h2]

/-- Witness for the amended claim C9: `" a"` and `"a"` tokenize alike. -/
theorem c9_witness :
    (∀ c ∈ [' '], c.isWhitespace = true) ∧
    (∀ c ∈ ([] : List Char), c.isWhitespace = true) ∧
    tokenize [] false true ([' '] ++ ['a'] ++ []) = tokenize [] false true ['a'] :=
  ⟨by decide, by decide, c9_theorem [] false true ['a'] [' '] [] (by decide) (by decide)⟩

/-- The model trained (by a completed `fit_list` call) on the single
password `"b!"`, used by the C9 counterexample. -/
def modelC9 : PCFGLite :=
  fit_list [] (initModel 1 false) [['b', '!']] none true none

/-- Counterexample to claim C9 as stated: `" a"` and `"a"` differ only in
leading whitespace and tokenize identically, but the model trained on
`"b!"` does *not* score them identically — `score` recomputes the runs
from the raw (unstripped) password, so the leading blank contributes an
extra `SYMBOL` factor (the score factor products are 1/27 vs 1/9; the
Python scores are the logarithms of these, hence also differ). -/
theorem c9_counterexample :
    stripChars [' ', 'a'] = stripChars ['a'] ∧
    scoreFactor [] true modelC9 [' ', 'a'] ≠ scoreFactor [] true modelC9 ['a'] := by
  constructor
  · decide
  · have e1 : scoreFactor [] true modelC9 ['a'] =
        template_prob modelC9 "FRAG".toList *
          slot_token_prob modelC9 .FRAG ['a'] := rfl
    have e2 : scoreFactor [] true modelC9 [' ', 'a'] =
        template_prob modelC9 "FRAG".toList *
          slot_token_prob modelC9 .SYMBOL [' '] *
          slot_token_prob modelC9 .FRAG ['a'] := rfl
    have v1 : template_prob modelC9 "FRAG".toList = 1 / 3 := by
      unfold template_prob
      rw [show cget modelC9.template_counts "FRAG".toList = 0 from by decide,
        show modelC9.total_templates = 1 from by decide,
        show csize modelC9.template_counts = 1 from by decide,
        show modelC9.alpha = 1 from rfl]
      norm_num
    have v2 : slot_token_prob modelC9 .FRAG ['a'] = 1 / 3 := by
      unfold slot_token_prob
      dsimp only
      rw [show cget (modelC9.slot_counts .FRAG) ['a'] = 0 from by decide,
        show ctotal (modelC9.slot_counts .FRAG) = 1 from by decide,
        show csize (modelC9.slot_counts .FRAG) = 1 from by decide,
        show modelC9.alpha = 1 from rfl]
      norm_num
    have v3 : slot_token_prob modelC9 .SYMBOL [' '] = 1 / 3 := by
      unfold slot_token_prob
      dsimp only
      rw [show cget (modelC9.slot_counts .SYMBOL) [' '] = 0 from by decide,
        show ctotal (modelC9.slot_counts .SYMBOL) = 1 from by decide,
        show csize (modelC9.slot_counts .SYMBOL) = 1 from by decide,
        show modelC9.alpha = 1 from rfl]
      norm_num
    rw [e1, e2, v1, v2, v3]
    norm_num

end PD
